import Mathlib

/-!
Shallow embedding of `pyqtorch/modules/parametric.py`: batched construction of
parametrized quantum gate matrices (rotation gates, the general single-qubit U
gate, controlled rotations, controlled phase) and their application to a
statevector.  Torch tensors of shape (d, d, B) are embedded as functions
`Fin d → Fin d → Fin B → ℂ` (row, column, batch index); angles are real
numbers, entries are complex numbers.
-/

noncomputable section

/-- A 2x2 complex matrix (a base operator or one batch slice). -/
abbrev Mat2 := Matrix (Fin 2) (Fin 2) ℂ

/-- A 4x4 complex matrix. -/
abbrev Mat4 := Matrix (Fin 4) (Fin 4) ℂ

/-- A batched (2,2,B) tensor, indexed row, column, batch. -/
def MBatch2 (B : ℕ) := Fin 2 → Fin 2 → Fin B → ℂ

/-- A batched (4,4,B) tensor, indexed row, column, batch. -/
def MBatch4 (B : ℕ) := Fin 4 → Fin 4 → Fin B → ℂ

/-- Modelled from the spec: the operator registry's fixed identity matrix
(`OPERATIONS_DICT["I"]`, from `pyqtorch.core.utils`, which is outside src/). -/
def opI : Mat2 := Matrix.of ![![1, 0], ![0, 1]]

/-- Modelled from the spec: the Pauli X matrix from the operator registry. -/
def pauliX : Mat2 := Matrix.of ![![0, 1], ![1, 0]]

/-- Modelled from the spec: the Pauli Y matrix from the operator registry. -/
def pauliY : Mat2 := Matrix.of ![![0, -Complex.I], ![Complex.I, 0]]

/-- Modelled from the spec: the Pauli Z matrix from the operator registry. -/
def pauliZ : Mat2 := Matrix.of ![![1, 0], ![0, -1]]

/-- Modelled from the spec: `get_base_operator` / `OPERATIONS_DICT` maps the
names "I", "X", "Y", "Z" to the fixed base matrices and fails on any other
name. -/
def OPERATIONS_DICT : String → Option Mat2
  | "I" => some opI
  | "X" => some pauliX
  | "Y" => some pauliY
  | "Z" => some pauliZ
  | _ => none

/-- A single-angle parameter tensor as accepted by `RotationGate.matrices`,
`ControlledRotationGate.matrices` and `CPHASE.matrices`: rank 1 of length B,
or rank 2 with a leading singleton axis. -/
inductive ThetaInput (B : ℕ) where
  | rank1 (v : Fin B → ℝ)
  | rank2 (v : Fin 1 → Fin B → ℝ)

/-- `theta = thetas.squeeze(0) if thetas.ndim == 2 else thetas`: a rank-2
input with a leading singleton axis is squeezed to rank 1. -/
def ThetaInput.squeeze {B : ℕ} : ThetaInput B → (Fin B → ℝ)
  | rank1 v => v
  | rank2 v => v 0

/-- `rot_matrices(theta, P, I, batch_size)`: `cos_t` and `sin_t` are
cos(theta/2), sin(theta/2) broadcast to shape (2,2,B); `batch_imat` and
`batch_operation_mat` replicate I and P along the batch axis; the result is
`cos_t * batch_imat - 1j * sin_t * batch_operation_mat`.  The `batch_size`
argument of the source equals the length of `theta` and is carried by the
type index B. -/
def rot_matrices {B : ℕ} (theta : Fin B → ℝ) (P Imat : Mat2) : MBatch2 B :=
  fun i j k =>
    (Real.cos (theta k / 2) : ℂ) * Imat i j
      - Complex.I * (Real.sin (theta k / 2) : ℂ) * P i j

/-- The (2,2) slice of a batched (2,2,B) tensor at batch index k. -/
def slice2 {B : ℕ} (M : MBatch2 B) (k : Fin B) : Mat2 :=
  Matrix.of fun i j => M i j k

/-- The (4,4) slice of a batched (4,4,B) tensor at batch index k. -/
def slice4 {B : ℕ} (M : MBatch4 B) (k : Fin B) : Mat4 :=
  Matrix.of fun i j => M i j k

/-- The spec's closed form for the single-axis rotation, written from the
spec's words: R(θ) = cos(θ/2)·I − i·sin(θ/2)·P. -/
def rotFormula (t : ℝ) (P Imat : Mat2) : Mat2 :=
  (Real.cos (t / 2) : ℂ) • Imat - Complex.I • ((Real.sin (t / 2) : ℂ) • P)

/-- `RotationGate(gate, qubits, n_qubits)`: the gate name, the single target
qubit (`qubits`), and the registered buffers `imat` and `paulimat`.  The total
qubit count `n_qubits` is the type index n. -/
structure RotationGate (n : ℕ) where
  gate : String
  qubits : Fin n
  imat : Mat2
  paulimat : Mat2

/-- `RotationGate.__init__`: registers `imat = OPERATIONS_DICT["I"]` and
`paulimat = OPERATIONS_DICT[gate]`; construction fails (UnknownOperatorError)
when the gate name is not in the registry. -/
def RotationGate.init {n : ℕ} (gate : String) (qubits : Fin n) :
    Option (RotationGate n) :=
  (OPERATIONS_DICT gate).map fun P => ⟨gate, qubits, opI, P⟩

/-- `RotationGate.matrices(thetas)`: squeeze a leading singleton axis, infer
`batch_size = len(theta)`, delegate to `rot_matrices`. -/
def RotationGate.matrices {n B : ℕ} (g : RotationGate n) (thetas : ThetaInput B) :
    MBatch2 B :=
  rot_matrices thetas.squeeze g.paulimat g.imat

/-- C1: each batch slice of `rot_matrices` (and of `RotationGate.matrices`,
for rank-1 or leading-singleton rank-2 input) equals
cos(θ_k/2)·I − i·sin(θ_k/2)·P; the (2,2,batch) shape with batch = len(theta)
is carried by the types. -/
theorem rot_matrices_slice_eq_formula :
    ∀ (n B : ℕ) (g : RotationGate n) (thetas : ThetaInput B) (k : Fin B),
      slice2 (g.matrices thetas) k = rotFormula (thetas.squeeze k) g.paulimat g.imat ∧
      ∀ (theta : Fin B → ℝ) (P Imat : Mat2),
        slice2 (rot_matrices theta P Imat) k = rotFormula (theta k) P Imat := by
  have core : ∀ (B : ℕ) (theta : Fin B → ℝ) (P Imat : Mat2) (k : Fin B),
      slice2 (rot_matrices theta P Imat) k = rotFormula (theta k) P Imat := by
    intro B theta P Imat k
    ext i j
    simp [slice2, rot_matrices, rotFormula, Matrix.sub_apply, Matrix.smul_apply,
      smul_eq_mul]
    ring
  intro n B g thetas k
  exact ⟨core B thetas.squeeze g.paulimat g.imat k, fun theta P Imat => core B theta P Imat k⟩

/-- The statevector of an n-qubit register with batch axis: one size-2 axis
per qubit plus a trailing batch axis. -/
def QState (n B : ℕ) := (Fin n → Fin 2) → Fin B → ℂ

/-- Encode the values of two qubit axes as a row/column index of a 4x4
matrix: (a, b) ↦ 2a + b, the |ab⟩ basis ordering. -/
def enc2 (a b : Fin 2) : Fin 4 := ⟨2 * a.val + b.val, by omega⟩

/-- Modelled from the spec: `_apply_batch_gate(state, mats, qubits, n_qubits,
batch_size)` (from `pyqtorch.core.batched_operation`, outside src/)
"contracts matrix_batch against the named qubit axes of state; must preserve
all non-targeted axes and the batch axis".  Specialization to a single
target qubit. -/
def apply_batch_gate1 {n B : ℕ} (state : QState n B) (mats : MBatch2 B)
    (q : Fin n) : QState n B :=
  fun f b => ∑ j : Fin 2, mats (f q) j b * state (Function.update f q j) b

/-- Modelled from the spec: `_apply_batch_gate` specialized to an ordered
pair of target qubits (control followed by target for controlled gates),
with the 4x4 matrix indexed in the |q0 q1⟩ basis. -/
def apply_batch_gate2 {n B : ℕ} (state : QState n B) (mats : MBatch4 B)
    (q0 q1 : Fin n) : QState n B :=
  fun f b => ∑ j0 : Fin 2, ∑ j1 : Fin 2,
    mats (enc2 (f q0) (f q1)) (enc2 j0 j1) b
      * state (Function.update (Function.update f q0 j0) q1 j1) b

/-- Modelled from the spec: `create_controlled_batch_from_operation` /
`embed_as_controlled` (outside src/) "returns a matrix batch of double the
linear dimension with matrix_batch embedded in the lower-right block and
identity elsewhere". -/
def create_controlled_batch_from_operation {B : ℕ} (mats : MBatch2 B) :
    MBatch4 B :=
  fun i j b =>
    if h : 2 ≤ i.val ∧ 2 ≤ j.val then
      mats ⟨i.val - 2, by omega⟩ ⟨j.val - 2, by omega⟩ b
    else if i = j then 1 else 0

/-- `RotationGate.apply(matrices, state)`: forwards to `_apply_batch_gate`
with the gate's target qubit; the batch size is the last axis of `matrices`. -/
def RotationGate.apply {n B : ℕ} (g : RotationGate n) (mats : MBatch2 B)
    (state : QState n B) : QState n B :=
  apply_batch_gate1 state mats g.qubits

/-- `RotationGate.forward(state, thetas) = self.apply(self.matrices(thetas), state)`. -/
def RotationGate.forward {n B : ℕ} (g : RotationGate n) (state : QState n B)
    (thetas : ThetaInput B) : QState n B :=
  g.apply (g.matrices thetas) state

/-- `ControlledRotationGate(gate, qubits, n_qubits)`: gate name, the ordered
pair (control, target) of qubits, and the registered `imat`/`paulimat`
buffers; n_qubits is the type index n. -/
structure ControlledRotationGate (n : ℕ) where
  gate : String
  control : Fin n
  target : Fin n
  imat : Mat2
  paulimat : Mat2

/-- `ControlledRotationGate.__init__`: same registry lookups as
`RotationGate.__init__`. -/
def ControlledRotationGate.init {n : ℕ} (gate : String) (control target : Fin n) :
    Option (ControlledRotationGate n) :=
  (OPERATIONS_DICT gate).map fun P => ⟨gate, control, target, opI, P⟩

/-- `ControlledRotationGate.matrices(thetas)`: identical to
`RotationGate.matrices` — the squeeze, then `rot_matrices`; the result is the
plain (2,2,batch) rotation batch. -/
def ControlledRotationGate.matrices {n B : ℕ} (g : ControlledRotationGate n)
    (thetas : ThetaInput B) : MBatch2 B :=
  rot_matrices thetas.squeeze g.paulimat g.imat

/-- `ControlledRotationGate.apply(matrices, state)`: embeds the rotation
batch as a controlled (4,4,batch) batch via
`create_controlled_batch_from_operation`, then contracts it against the
(control, target) qubit axes. -/
def ControlledRotationGate.apply {n B : ℕ} (g : ControlledRotationGate n)
    (mats : MBatch2 B) (state : QState n B) : QState n B :=
  apply_batch_gate2 state (create_controlled_batch_from_operation mats)
    g.control g.target

/-- `ControlledRotationGate.forward(state, thetas) = self.apply(self.matrices(thetas), state)`. -/
def ControlledRotationGate.forward {n B : ℕ} (g : ControlledRotationGate n)
    (state : QState n B) (thetas : ThetaInput B) : QState n B :=
  g.apply (g.matrices thetas) state

/-- `CRX(qubits, n_qubits)` = `ControlledRotationGate("X", qubits, n_qubits)`. -/
def CRX.init {n : ℕ} (control target : Fin n) : Option (ControlledRotationGate n) :=
  ControlledRotationGate.init "X" control target

/-- `CPHASE(qubits, n_qubits)`: ordered qubit pair and the registered buffer
`imat = torch.eye(4)`. -/
structure CPHASE (n : ℕ) where
  control : Fin n
  target : Fin n
  imat : Mat4

/-- `CPHASE.__init__`: registers `imat = torch.eye(4, dtype=cdouble)`. -/
def CPHASE.init {n : ℕ} (control target : Fin n) : CPHASE n :=
  ⟨control, target, 1⟩

/-- `CPHASE.matrices(thetas)`: squeeze a leading singleton axis; replicate
`imat` along the batch axis (`repeat`), permute so the batch axis trails,
then overwrite the (3,3) diagonal entries with exp(1j * theta).  The value at
(i,j,k) is exp(i·θ_k) when (i,j) = (3,3) and `imat[i,j]` otherwise. -/
def CPHASE.matrices {n B : ℕ} (g : CPHASE n) (thetas : ThetaInput B) :
    MBatch4 B :=
  fun i j k =>
    if i = 3 ∧ j = 3 then Complex.exp (Complex.I * thetas.squeeze k)
    else g.imat i j

/-- `CPHASE.apply(matrices, state)`: contract the (4,4,batch) batch against
the gate's qubit pair. -/
def CPHASE.apply {n B : ℕ} (g : CPHASE n) (mats : MBatch4 B)
    (state : QState n B) : QState n B :=
  apply_batch_gate2 state mats g.control g.target

/-- `CPHASE.forward(state, thetas) = self.apply(self.matrices(thetas), state)`. -/
def CPHASE.forward {n B : ℕ} (g : CPHASE n) (state : QState n B)
    (thetas : ThetaInput B) : QState n B :=
  g.apply (g.matrices thetas) state

/-- C5: every batch slice of `CPHASE.matrices` is the diagonal matrix with
diagonal [1, 1, 1, exp(i·θ_k)] — only the (3,3) entry differs from the
identity. -/
theorem cphase_matrices_slice_diagonal :
    ∀ (n B : ℕ) (control target : Fin n) (thetas : ThetaInput B) (k : Fin B),
      slice4 ((CPHASE.init control target).matrices thetas) k =
        Matrix.diagonal ![1, 1, 1, Complex.exp (Complex.I * thetas.squeeze k)] := by
  intro n B control target thetas k
  ext i j
  fin_cases i <;> fin_cases j <;>
    simp [slice4, CPHASE.matrices, CPHASE.init, Matrix.diagonal, Matrix.one_apply]

/-- `U.__init__` buffer `a` = |0⟩⟨0| (source line 164; the trailing
unsqueeze is the batch broadcast, handled here by replication in
`U.matricesCore`). -/
def Uproj_a : Mat2 := Matrix.of ![![1, 0], ![0, 0]]

/-- `U.__init__` buffer `b` = |0⟩⟨1| (source line 165). -/
def Uproj_b : Mat2 := Matrix.of ![![0, 1], ![0, 0]]

/-- `U.__init__` buffer `c` = |1⟩⟨0| (source line 166). -/
def Uproj_c : Mat2 := Matrix.of ![![0, 0], ![1, 0]]

/-- `U.__init__` buffer `d` = |1⟩⟨1| (source line 167). -/
def Uproj_d : Mat2 := Matrix.of ![![0, 0], ![0, 1]]

/-- `U(qubits, n_qubits)`: the single target qubit; the projector buffers are
the fixed constants above. -/
structure U (n : ℕ) where
  qubits : Fin n

/-- The body of `U.matrices` after the shape check, for a (3,B) parameter
tensor split into rows phi, theta, omega:
`t_plus = exp(-1j*(phi+omega)/2)`, `t_minus = exp(-1j*(phi-omega)/2)`, and
the result is `a*cos_t*t_plus - b*sin_t*conj(t_minus) + c*sin_t*t_minus +
d*cos_t*conj(t_plus)` with cos_t, sin_t the broadcast cos(theta/2),
sin(theta/2). -/
def U.matricesCore {B : ℕ} (phi theta omg : Fin B → ℝ) : MBatch2 B :=
  fun i j k =>
    Uproj_a i j * (Real.cos (theta k / 2) : ℂ)
        * Complex.exp (-Complex.I * ((phi k : ℂ) + (omg k : ℂ)) / 2)
      - Uproj_b i j * (Real.sin (theta k / 2) : ℂ)
        * (starRingEnd ℂ) (Complex.exp (-Complex.I * ((phi k : ℂ) - (omg k : ℂ)) / 2))
      + Uproj_c i j * (Real.sin (theta k / 2) : ℂ)
        * Complex.exp (-Complex.I * ((phi k : ℂ) - (omg k : ℂ)) / 2)
      + Uproj_d i j * (Real.cos (theta k / 2) : ℂ)
        * (starRingEnd ℂ) (Complex.exp (-Complex.I * ((phi k : ℂ) + (omg k : ℂ)) / 2))

/-- A parameter tensor for `U.matrices`: rank 1 of length m, or rank 2 of
shape (m, B). -/
inductive UInput where
  | rank1 (m : ℕ) (v : Fin m → ℝ)
  | rank2 (m B : ℕ) (v : Fin m → Fin B → ℝ)

/-- `if thetas.ndim == 1: thetas = thetas.unsqueeze(1)`: a rank-1 input is
promoted to rank 2 with a singleton trailing axis; the result records the
first-axis size, the batch size, and the entries. -/
def UInput.promote : UInput → (m : ℕ) × (B : ℕ) × (Fin m → Fin B → ℝ)
  | rank1 m v => ⟨m, 1, fun i _ => v i⟩
  | rank2 m B v => ⟨m, B, v⟩

/-- `U.matrices(thetas)` with its shape contract: after rank promotion,
`assert thetas.size(0) == 3` fails (none) unless the first axis has size
exactly 3; otherwise the rows phi = thetas[0,:], theta = thetas[1,:],
omega = thetas[2,:] feed the closed form, with batch size thetas.size(1). -/
def U.matricesChecked (inp : UInput) :
    Option ((B : ℕ) × (Fin 2 → Fin 2 → Fin B → ℂ)) :=
  let p := inp.promote
  if h : p.1 = 3 then
    some ⟨p.2.1, U.matricesCore (fun k => p.2.2 ⟨0, by omega⟩ k)
      (fun k => p.2.2 ⟨1, by omega⟩ k) (fun k => p.2.2 ⟨2, by omega⟩ k)⟩
  else none

/-- `U.apply(matrices, state)`: forwards to `_apply_batch_gate` with the
gate's target qubit. -/
def U.apply {n B : ℕ} (g : U n) (mats : MBatch2 B) (state : QState n B) :
    QState n B :=
  apply_batch_gate1 state mats g.qubits

/-- `U.forward(state, thetas) = self.apply(self.matrices(thetas), state)`,
for a well-shaped (3,B) parameter tensor. -/
def U.forward {n B : ℕ} (g : U n) (state : QState n B)
    (thetas : Fin 3 → Fin B → ℝ) : QState n B :=
  g.apply (U.matricesCore (thetas 0) (thetas 1) (thetas 2)) state

/-- C7: `U.matrices` signals the assertion failure exactly when the promoted
parameter tensor's first axis is not of size 3; a rank-1 length-3 input
yields a batch of size 1, and a (3,B) input yields a batch of size B. -/
theorem U_matricesChecked_spec :
    (∀ inp : UInput, U.matricesChecked inp = none ↔ inp.promote.1 ≠ 3) ∧
    (∀ v : Fin 3 → ℝ,
      U.matricesChecked (UInput.rank1 3 v) =
        some ⟨1, U.matricesCore (fun _ => v 0) (fun _ => v 1) (fun _ => v 2)⟩) ∧
    (∀ (B : ℕ) (v : Fin 3 → Fin B → ℝ),
      U.matricesChecked (UInput.rank2 3 B v) =
        some ⟨B, U.matricesCore (v 0) (v 1) (v 2)⟩) := by
  refine ⟨fun inp => ?_, fun v => rfl, fun B v => rfl⟩
  unfold U.matricesChecked
  by_cases h : inp.promote.1 = 3 <;> simp [h]

/-- Witness for C7 at concrete inputs: a rank-1 input of length 2 is
rejected, and a concrete (3,2) input yields batch size 2. -/
theorem U_matricesChecked_spec_witness :
    U.matricesChecked (UInput.rank1 2 ![0, 0]) = none ∧
    U.matricesChecked (UInput.rank2 3 2 (fun _ _ => 0)) =
      some ⟨2, U.matricesCore (fun _ => 0) (fun _ => 0) (fun _ => 0)⟩ :=
  ⟨(U_matricesChecked_spec.1 (UInput.rank1 2 ![0, 0])).mpr (by simp [UInput.promote]),
   U_matricesChecked_spec.2.2 2 (fun _ _ => 0)⟩

lemma exp_neg_I_ofReal (t : ℝ) :
    Complex.exp (-Complex.I * t) = (Real.cos t : ℂ) - Complex.I * (Real.sin t : ℂ) := by
  have h : -Complex.I * (t : ℂ) = (-(t : ℂ)) * Complex.I := by ring
  rw [h, Complex.exp_mul_I, Complex.cos_neg, Complex.sin_neg,
    ← Complex.ofReal_cos, ← Complex.ofReal_sin]
  ring

lemma exp_I_ofReal (t : ℝ) :
    Complex.exp (Complex.I * t) = (Real.cos t : ℂ) + Complex.I * (Real.sin t : ℂ) := by
  have h : Complex.I * (t : ℂ) = ((t : ℂ)) * Complex.I := by ring
  rw [h, Complex.exp_mul_I, ← Complex.ofReal_cos, ← Complex.ofReal_sin]
  ring

lemma exp_plus_split (x y : ℝ) :
    Complex.exp (-Complex.I * ((x : ℂ) + (y : ℂ)) / 2) =
      ((Real.cos (x / 2) : ℂ) - Complex.I * (Real.sin (x / 2) : ℂ)) *
        ((Real.cos (y / 2) : ℂ) - Complex.I * (Real.sin (y / 2) : ℂ)) := by
  rw [← exp_neg_I_ofReal (x / 2), ← exp_neg_I_ofReal (y / 2), ← Complex.exp_add]
  congr 1
  push_cast
  ring

lemma exp_minus_split (x y : ℝ) :
    Complex.exp (-Complex.I * ((x : ℂ) - (y : ℂ)) / 2) =
      ((Real.cos (x / 2) : ℂ) - Complex.I * (Real.sin (x / 2) : ℂ)) *
        ((Real.cos (y / 2) : ℂ) + Complex.I * (Real.sin (y / 2) : ℂ)) := by
  rw [← exp_neg_I_ofReal (x / 2), ← exp_I_ofReal (y / 2), ← Complex.exp_add]
  congr 1
  push_cast
  ring

lemma conj_cis_neg (t : ℝ) :
    (starRingEnd ℂ) ((Real.cos t : ℂ) - Complex.I * (Real.sin t : ℂ)) =
      (Real.cos t : ℂ) + Complex.I * (Real.sin t : ℂ) := by
  rw [map_sub, map_mul, Complex.conj_I, Complex.conj_ofReal, Complex.conj_ofReal]
  ring

lemma conj_cis_pos (t : ℝ) :
    (starRingEnd ℂ) ((Real.cos t : ℂ) + Complex.I * (Real.sin t : ℂ)) =
      (Real.cos t : ℂ) - Complex.I * (Real.sin t : ℂ) := by
  rw [map_add, map_mul, Complex.conj_I, Complex.conj_ofReal, Complex.conj_ofReal]
  ring

lemma I_cube : Complex.I ^ 3 = -Complex.I := by
  rw [pow_succ, Complex.I_sq]
  ring

lemma I_four : Complex.I ^ 4 = 1 := by
  rw [pow_succ, I_cube]
  simp [Complex.I_mul_I]

lemma U_slice_eq_product {B : ℕ} (phi theta omg : Fin B → ℝ) (k : Fin B) :
    slice2 (U.matricesCore phi theta omg) k =
      slice2 (rot_matrices omg pauliZ opI) k *
        (slice2 (rot_matrices theta pauliY opI) k *
          slice2 (rot_matrices phi pauliZ opI) k) := by
  ext i j
  fin_cases i <;> fin_cases j <;>
    simp only [slice2, U.matricesCore, rot_matrices, Matrix.mul_apply,
      Fin.sum_univ_two, Matrix.of_apply, Fin.zero_eta, Fin.mk_one,
      Uproj_a, Uproj_b, Uproj_c, Uproj_d, pauliY, pauliZ, opI,
      Matrix.cons_val_zero, Matrix.cons_val_one, Matrix.head_cons,
      mul_zero, zero_mul, mul_one, one_mul, sub_zero, zero_sub, add_zero,
      zero_add, neg_zero, neg_neg, exp_plus_split, exp_minus_split, map_mul,
      conj_cis_neg, conj_cis_pos] <;>
    (ring_nf; try simp only [Complex.I_sq, I_cube, I_four]; try ring)

/-- C2: each batch slice of the U-gate closed form equals the product
RZ(omega)·RY(theta)·RZ(phi) of independently built one-axis rotation slices,
up to a global phase of unit modulus (here the phase is 1: the equality is
exact). -/
theorem U_matrices_eq_rz_ry_rz :
    ∀ (B : ℕ) (phi theta omg : Fin B → ℝ) (k : Fin B),
      ∃ z : ℂ, Complex.abs z = 1 ∧
        slice2 (U.matricesCore phi theta omg) k =
          z • (slice2 (rot_matrices omg pauliZ opI) k *
            (slice2 (rot_matrices theta pauliY opI) k *
              slice2 (rot_matrices phi pauliZ opI) k)) := by
  intro B phi theta omg k
  exact ⟨1, by simp, by rw [U_slice_eq_product]; simp⟩

lemma exp_I_mul_star_self (t : ℝ) :
    Complex.exp (Complex.I * t) * (starRingEnd ℂ) (Complex.exp (Complex.I * t)) = 1 := by
  rw [← Complex.exp_conj, ← Complex.exp_add]
  have h : Complex.I * (t : ℂ) + (starRingEnd ℂ) (Complex.I * (t : ℂ)) = 0 := by
    rw [map_mul, Complex.conj_I, Complex.conj_ofReal]
    ring
  rw [h, Complex.exp_zero]

lemma rotX_slice_unitary {B : ℕ} (theta : Fin B → ℝ) (k : Fin B) :
    slice2 (rot_matrices theta pauliX opI) k *
      (slice2 (rot_matrices theta pauliX opI) k).conjTranspose = 1 := by
  have h : ((Real.sin (theta k / 2) : ℂ)) ^ 2 + ((Real.cos (theta k / 2) : ℂ)) ^ 2 = 1 := by
    have h0 := Real.sin_sq_add_cos_sq (theta k / 2)
    exact_mod_cast congrArg Complex.ofReal h0
  ext i j
  fin_cases i <;> fin_cases j <;>
    simp only [slice2, rot_matrices, Matrix.mul_apply, Matrix.conjTranspose_apply,
      Fin.sum_univ_two, Matrix.of_apply, Fin.zero_eta, Fin.mk_one,
      pauliX, opI, Matrix.cons_val_zero, Matrix.cons_val_one, Matrix.head_cons,
      Matrix.one_fin_two, star_neg, Complex.star_def, map_sub, map_neg, map_mul,
      Complex.conj_I, Complex.conj_ofReal, map_zero, map_one, mul_zero, zero_mul, mul_one, one_mul,
      sub_zero, zero_sub, add_zero, zero_add, neg_zero, neg_neg, reduceIte] <;>
    first
      | (simp; done)
      | ring1
      | (ring_nf; try simp only [Complex.I_sq, I_cube, I_four]; try (ring_nf at h); try linear_combination h)

lemma rotY_slice_unitary {B : ℕ} (theta : Fin B → ℝ) (k : Fin B) :
    slice2 (rot_matrices theta pauliY opI) k *
      (slice2 (rot_matrices theta pauliY opI) k).conjTranspose = 1 := by
  have h : ((Real.sin (theta k / 2) : ℂ)) ^ 2 + ((Real.cos (theta k / 2) : ℂ)) ^ 2 = 1 := by
    have h0 := Real.sin_sq_add_cos_sq (theta k / 2)
    exact_mod_cast congrArg Complex.ofReal h0
  ext i j
  fin_cases i <;> fin_cases j <;>
    simp only [slice2, rot_matrices, Matrix.mul_apply, Matrix.conjTranspose_apply,
      Fin.sum_univ_two, Matrix.of_apply, Fin.zero_eta, Fin.mk_one,
      pauliY, opI, Matrix.cons_val_zero, Matrix.cons_val_one, Matrix.head_cons,
      Matrix.one_fin_two, star_neg, Complex.star_def, map_sub, map_neg, map_mul,
      Complex.conj_I, Complex.conj_ofReal, map_zero, map_one, mul_zero, zero_mul, mul_one, one_mul,
      sub_zero, zero_sub, add_zero, zero_add, neg_zero, neg_neg, reduceIte] <;>
    first
      | (simp; done)
      | ring1
      | (ring_nf; try simp only [Complex.I_sq, I_cube, I_four]; try (ring_nf at h); try linear_combination h)

lemma rotZ_slice_unitary {B : ℕ} (theta : Fin B → ℝ) (k : Fin B) :
    slice2 (rot_matrices theta pauliZ opI) k *
      (slice2 (rot_matrices theta pauliZ opI) k).conjTranspose = 1 := by
  have h : ((Real.sin (theta k / 2) : ℂ)) ^ 2 + ((Real.cos (theta k / 2) : ℂ)) ^ 2 = 1 := by
    have h0 := Real.sin_sq_add_cos_sq (theta k / 2)
    exact_mod_cast congrArg Complex.ofReal h0
  ext i j
  fin_cases i <;> fin_cases j <;>
    simp only [slice2, rot_matrices, Matrix.mul_apply, Matrix.conjTranspose_apply,
      Fin.sum_univ_two, Matrix.of_apply, Fin.zero_eta, Fin.mk_one,
      pauliZ, opI, Matrix.cons_val_zero, Matrix.cons_val_one, Matrix.head_cons,
      Matrix.one_fin_two, star_neg, Complex.star_def, map_sub, map_neg, map_mul,
      Complex.conj_I, Complex.conj_ofReal, map_zero, map_one, mul_zero, zero_mul, mul_one, one_mul,
      sub_zero, zero_sub, add_zero, zero_add, neg_zero, neg_neg, reduceIte] <;>
    first
      | (simp; done)
      | ring1
      | (ring_nf; try simp only [Complex.I_sq, I_cube, I_four]; try (ring_nf at h); try linear_combination h)

lemma mul_conjTranspose_cancel {A C : Mat2} (hA : A * A.conjTranspose = 1)
    (hC : C * C.conjTranspose = 1) :
    (A * C) * (A * C).conjTranspose = 1 := by
  rw [Matrix.conjTranspose_mul, Matrix.mul_assoc, ← Matrix.mul_assoc C,
    hC, Matrix.one_mul, hA]

lemma cphase_slice_unitary {n B : ℕ} (control target : Fin n)
    (thetas : ThetaInput B) (k : Fin B) :
    slice4 ((CPHASE.init control target).matrices thetas) k *
      (slice4 ((CPHASE.init control target).matrices thetas) k).conjTranspose = 1 := by
  ext i j
  fin_cases i <;> fin_cases j <;>
    simp [slice4, CPHASE.matrices, CPHASE.init, Matrix.mul_apply,
      Matrix.conjTranspose_apply, Fin.sum_univ_four, Matrix.one_apply,
      exp_I_mul_star_self]

/-- C3: every per-batch-element matrix slice produced by the gate matrix
builders is unitary, M * M-dagger = 1: the rotation slices for each Pauli
base matrix X, Y, Z, the U-gate slices, and the CPHASE slices. -/
theorem gate_matrices_unitary :
    ∀ (n B : ℕ) (theta phi omg : Fin B → ℝ) (control target : Fin n)
      (thetas : ThetaInput B) (k : Fin B),
      slice2 (rot_matrices theta pauliX opI) k *
        (slice2 (rot_matrices theta pauliX opI) k).conjTranspose = 1 ∧
      slice2 (rot_matrices theta pauliY opI) k *
        (slice2 (rot_matrices theta pauliY opI) k).conjTranspose = 1 ∧
      slice2 (rot_matrices theta pauliZ opI) k *
        (slice2 (rot_matrices theta pauliZ opI) k).conjTranspose = 1 ∧
      slice2 (U.matricesCore phi theta omg) k *
        (slice2 (U.matricesCore phi theta omg) k).conjTranspose = 1 ∧
      slice4 ((CPHASE.init control target).matrices thetas) k *
        (slice4 ((CPHASE.init control target).matrices thetas) k).conjTranspose = 1 := by
  intro n B theta phi omg control target thetas k
  refine ⟨rotX_slice_unitary theta k, rotY_slice_unitary theta k,
    rotZ_slice_unitary theta k, ?_, cphase_slice_unitary control target thetas k⟩
  rw [U_slice_eq_product]
  exact mul_conjTranspose_cancel (rotZ_slice_unitary omg k)
    (mul_conjTranspose_cancel (rotY_slice_unitary theta k) (rotZ_slice_unitary phi k))

lemma rotX_inverse {B : ℕ} (theta : Fin B → ℝ) (k : Fin B) :
    slice2 (rot_matrices theta pauliX opI) k *
      slice2 (rot_matrices (fun i => -(theta i)) pauliX opI) k = 1 := by
  have h : ((Real.sin (theta k / 2) : ℂ)) ^ 2 + ((Real.cos (theta k / 2) : ℂ)) ^ 2 = 1 := by
    have h0 := Real.sin_sq_add_cos_sq (theta k / 2)
    exact_mod_cast congrArg Complex.ofReal h0
  ext i j
  fin_cases i <;> fin_cases j <;>
    simp only [slice2, rot_matrices, Matrix.mul_apply,
      Fin.sum_univ_two, Matrix.of_apply, Fin.zero_eta, Fin.mk_one,
      pauliX, opI, Matrix.cons_val_zero, Matrix.cons_val_one, Matrix.head_cons,
      Matrix.one_fin_two, neg_div, Real.cos_neg, Real.sin_neg,
      Complex.ofReal_neg, mul_zero, zero_mul, mul_one, one_mul,
      sub_zero, zero_sub, add_zero, zero_add, neg_zero, neg_neg] <;>
    first
      | (simp; done)
      | ring1
      | (ring_nf; try simp only [Complex.I_sq, I_cube, I_four]; try (ring_nf at h); try linear_combination h)

lemma rotY_inverse {B : ℕ} (theta : Fin B → ℝ) (k : Fin B) :
    slice2 (rot_matrices theta pauliY opI) k *
      slice2 (rot_matrices (fun i => -(theta i)) pauliY opI) k = 1 := by
  have h : ((Real.sin (theta k / 2) : ℂ)) ^ 2 + ((Real.cos (theta k / 2) : ℂ)) ^ 2 = 1 := by
    have h0 := Real.sin_sq_add_cos_sq (theta k / 2)
    exact_mod_cast congrArg Complex.ofReal h0
  ext i j
  fin_cases i <;> fin_cases j <;>
    simp only [slice2, rot_matrices, Matrix.mul_apply,
      Fin.sum_univ_two, Matrix.of_apply, Fin.zero_eta, Fin.mk_one,
      pauliY, opI, Matrix.cons_val_zero, Matrix.cons_val_one, Matrix.head_cons,
      Matrix.one_fin_two, neg_div, Real.cos_neg, Real.sin_neg,
      Complex.ofReal_neg, mul_zero, zero_mul, mul_one, one_mul,
      sub_zero, zero_sub, add_zero, zero_add, neg_zero, neg_neg] <;>
    first
      | (simp; done)
      | ring1
      | (ring_nf; try simp only [Complex.I_sq, I_cube, I_four]; try (ring_nf at h); try linear_combination h)

lemma rotZ_inverse {B : ℕ} (theta : Fin B → ℝ) (k : Fin B) :
    slice2 (rot_matrices theta pauliZ opI) k *
      slice2 (rot_matrices (fun i => -(theta i)) pauliZ opI) k = 1 := by
  have h : ((Real.sin (theta k / 2) : ℂ)) ^ 2 + ((Real.cos (theta k / 2) : ℂ)) ^ 2 = 1 := by
    have h0 := Real.sin_sq_add_cos_sq (theta k / 2)
    exact_mod_cast congrArg Complex.ofReal h0
  ext i j
  fin_cases i <;> fin_cases j <;>
    simp only [slice2, rot_matrices, Matrix.mul_apply,
      Fin.sum_univ_two, Matrix.of_apply, Fin.zero_eta, Fin.mk_one,
      pauliZ, opI, Matrix.cons_val_zero, Matrix.cons_val_one, Matrix.head_cons,
      Matrix.one_fin_two, neg_div, Real.cos_neg, Real.sin_neg,
      Complex.ofReal_neg, mul_zero, zero_mul, mul_one, one_mul,
      sub_zero, zero_sub, add_zero, zero_add, neg_zero, neg_neg] <;>
    first
      | (simp; done)
      | ring1
      | (ring_nf; try simp only [Complex.I_sq, I_cube, I_four]; try (ring_nf at h); try linear_combination h)

/-- C9: for RX, RY and RZ the matrix built at angle 0 is the 2x2 identity,
and for every angle the slice at theta times the slice at -theta is the
identity, per batch element. -/
theorem rot_identity_and_inverse :
    ∀ (B : ℕ) (theta : Fin B → ℝ) (k : Fin B),
      (slice2 (rot_matrices (fun _ => 0) pauliX opI) k = 1 ∧
        slice2 (rot_matrices theta pauliX opI) k *
          slice2 (rot_matrices (fun i => -(theta i)) pauliX opI) k = 1) ∧
      (slice2 (rot_matrices (fun _ => 0) pauliY opI) k = 1 ∧
        slice2 (rot_matrices theta pauliY opI) k *
          slice2 (rot_matrices (fun i => -(theta i)) pauliY opI) k = 1) ∧
      (slice2 (rot_matrices (fun _ => 0) pauliZ opI) k = 1 ∧
        slice2 (rot_matrices theta pauliZ opI) k *
          slice2 (rot_matrices (fun i => -(theta i)) pauliZ opI) k = 1) := by
  intro B theta k
  refine ⟨⟨?_, rotX_inverse theta k⟩, ⟨?_, rotY_inverse theta k⟩, ⟨?_, rotZ_inverse theta k⟩⟩ <;>
    (ext i j
     fin_cases i <;> fin_cases j <;>
       simp [slice2, rot_matrices, pauliX, pauliY, pauliZ, opI,
         Matrix.one_fin_two, Real.cos_zero, Real.sin_zero, zero_div])

/-- C8: for every gate kind, `forward(state, params)` is exactly
`apply(matrices(params), state)`; no further computation. -/
theorem forward_eq_apply_matrices :
    ∀ (n B : ℕ) (g : RotationGate n) (cg : ControlledRotationGate n)
      (cp : CPHASE n) (u : U n) (state : QState n B) (thetas : ThetaInput B)
      (uthetas : Fin 3 → Fin B → ℝ),
      g.forward state thetas = g.apply (g.matrices thetas) state ∧
      cg.forward state thetas = cg.apply (cg.matrices thetas) state ∧
      cp.forward state thetas = cp.apply (cp.matrices thetas) state ∧
      u.forward state uthetas =
        u.apply (U.matricesCore (uthetas 0) (uthetas 1) (uthetas 2)) state :=
  fun _ _ _ _ _ _ _ _ _ => ⟨rfl, rfl, rfl, rfl⟩

/-- A gate matrix batch with its tensor shape made observable: the first
component is the linear dimension dim of the torch shape (dim, dim, batch). -/
def MatrixBatch (B : ℕ) : Type := Σ dim : ℕ, (Fin dim → Fin dim → Fin B → ℂ)

/-- `RotationGate.matrices` with its shape: a (2,2,batch) tensor. -/
def RotationGate.matricesT {n B : ℕ} (g : RotationGate n)
    (thetas : ThetaInput B) : MatrixBatch B :=
  ⟨2, g.matrices thetas⟩

/-- `ControlledRotationGate.matrices` with its shape: a (2,2,batch) tensor
(the plain rotation batch as returned by the source, lines 240-243). -/
def ControlledRotationGate.matricesT {n B : ℕ} (g : ControlledRotationGate n)
    (thetas : ThetaInput B) : MatrixBatch B :=
  ⟨2, g.matrices thetas⟩

/-- `CPHASE.matrices` with its shape: a (4,4,batch) tensor. -/
def CPHASE.matricesT {n B : ℕ} (g : CPHASE n) (thetas : ThetaInput B) :
    MatrixBatch B :=
  ⟨4, g.matrices thetas⟩

/-- `U.matrices` with its shape, for a well-shaped (3,B) input: a (2,2,batch)
tensor. -/
def U.matricesT {B : ℕ} (thetas : Fin 3 → Fin B → ℝ) : MatrixBatch B :=
  ⟨2, U.matricesCore (thetas 0) (thetas 1) (thetas 2)⟩

/-- The CRX gate on qubit pair (0, 1) of a 2-qubit register, exactly as
built by `CRX.__init__` (gate name "X", registry buffers). -/
def crx01 : ControlledRotationGate 2 :=
  ⟨"X", 0, 1, opI, pauliX⟩

/-- A concrete singleton angle batch, theta = 0. -/
def theta0 : ThetaInput 1 :=
  ThetaInput.rank1 fun _ => 0

/-- C6 counterexample: the `matrices` method of the concrete CRX gate
returns a batch whose slices have linear dimension 2, not 4 — it is the
plain rotation batch, not the controlled block matrix. -/
theorem crx_matrices_dim_ne_four :
    CRX.init (0 : Fin 2) 1 = some crx01 ∧
    (crx01.matricesT theta0).1 = 2 ∧ ¬((crx01.matricesT theta0).1 = 4) :=
  ⟨rfl, rfl, by decide⟩

/-- C6 amended: `matrices` returns a (dim, dim, batch) batch with dim = 2
for RotationGate, U and also for CRX/CRY/CRZ (the plain rotation batch);
dim = 4 for CPHASE; the (4,4,batch) controlled block matrix of CRX/CRY/CRZ
is only built inside `apply`, via `create_controlled_batch_from_operation`. -/
theorem matrices_batch_dims :
    ∀ (n B : ℕ) (g : RotationGate n) (cg : ControlledRotationGate n)
      (cp : CPHASE n) (thetas : ThetaInput B) (uthetas : Fin 3 → Fin B → ℝ)
      (mats : MBatch2 B) (state : QState n B),
      (g.matricesT thetas).1 = 2 ∧
      (cg.matricesT thetas).1 = 2 ∧
      (cp.matricesT thetas).1 = 4 ∧
      (U.matricesT uthetas).1 = 2 ∧
      cg.apply mats state =
        apply_batch_gate2 state (create_controlled_batch_from_operation mats)
          cg.control cg.target :=
  fun _ _ _ _ _ _ _ _ _ => ⟨rfl, rfl, rfl, rfl, rfl⟩

lemma fin2_cases (x : Fin 2) : x = 0 ∨ x = 1 := by
  fin_cases x
  · exact Or.inl rfl
  · exact Or.inr rfl

lemma ccb_enc2 {B : ℕ} (mats : MBatch2 B) (a c' j0 j1 : Fin 2) (bb : Fin B) :
    create_controlled_batch_from_operation mats (enc2 a c') (enc2 j0 j1) bb =
      if a = 0 then (if j0 = 0 ∧ c' = j1 then 1 else 0)
      else (if j0 = 1 then mats c' j1 bb else 0) := by
  fin_cases a <;> fin_cases c' <;> fin_cases j0 <;> fin_cases j1 <;>
    simp [create_controlled_batch_from_operation, enc2] <;>
    (rw [dif_pos (by decide)] <;> congr 1 <;> decide)

lemma controlled_apply_control_zero {n B : ℕ} (mats : MBatch2 B)
    (state : QState n B) (c t : Fin n) (hct : c ≠ t)
    (hstate : ∀ f b, f c = 1 → state f b = 0) :
    apply_batch_gate2 state (create_controlled_batch_from_operation mats) c t
      = state := by
  funext f b
  rcases fin2_cases (f c) with hc | hc
  · rcases fin2_cases (f t) with ht | ht
    · have h2 : Function.update f t (0 : Fin 2) = f := by
        rw [← ht]
        exact Function.update_eq_self t f
      have hfc : Function.update f c (0 : Fin 2) = f := by
        rw [← hc]
        exact Function.update_eq_self c f
      simp [apply_batch_gate2, Fin.sum_univ_two, ccb_enc2, hc, ht, hfc, h2]
    · have h2 : Function.update f t (1 : Fin 2) = f := by
        rw [← ht]
        exact Function.update_eq_self t f
      have hfc : Function.update f c (0 : Fin 2) = f := by
        rw [← hc]
        exact Function.update_eq_self c f
      simp [apply_batch_gate2, Fin.sum_univ_two, ccb_enc2, hc, ht, hfc, h2]
  · have hfc : Function.update f c (1 : Fin 2) = f := by
      rw [← hc]
      exact Function.update_eq_self c f
    have hs0 : state (Function.update f t (0 : Fin 2)) b = 0 := by
      refine hstate _ b ?_
      rw [Function.update_noteq hct]
      exact hc
    have hs1 : state (Function.update f t (1 : Fin 2)) b = 0 := by
      refine hstate _ b ?_
      rw [Function.update_noteq hct]
      exact hc
    have hsf : state f b = 0 := hstate f b hc
    rcases fin2_cases (f t) with ht | ht <;>
      simp [apply_batch_gate2, Fin.sum_univ_two, ccb_enc2, hc, ht, hfc,
        hs0, hs1, hsf]

lemma controlled_apply_control_one {n B : ℕ} (mats : MBatch2 B)
    (state : QState n B) (c t : Fin n) (hct : c ≠ t)
    (hstate : ∀ f b, f c = 0 → state f b = 0) :
    apply_batch_gate2 state (create_controlled_batch_from_operation mats) c t
      = apply_batch_gate1 state mats t := by
  funext f b
  rcases fin2_cases (f c) with hc | hc
  · have hs0 : state (Function.update f t (0 : Fin 2)) b = 0 := by
      refine hstate _ b ?_
      rw [Function.update_noteq hct]
      exact hc
    have hs1 : state (Function.update f t (1 : Fin 2)) b = 0 := by
      refine hstate _ b ?_
      rw [Function.update_noteq hct]
      exact hc
    have hsf : state f b = 0 := hstate f b hc
    have hfc : Function.update f c (0 : Fin 2) = f := by
      rw [← hc]
      exact Function.update_eq_self c f
    rcases fin2_cases (f t) with ht | ht <;>
      simp [apply_batch_gate2, apply_batch_gate1, Fin.sum_univ_two, ccb_enc2,
        hc, ht, hfc, hs0, hs1, hsf]
  · have hfc : Function.update f c (1 : Fin 2) = f := by
      rw [← hc]
      exact Function.update_eq_self c f
    rcases fin2_cases (f t) with ht | ht <;>
      simp [apply_batch_gate2, apply_batch_gate1, Fin.sum_univ_two, ccb_enc2,
        hc, ht, hfc]

/-- C4: under the modelled collaborator contracts for the controlled-matrix
embedder and the batched state applicator, applying a controlled-rotation
gate to a state whose control qubit is fixed at |0> leaves the state
unchanged for any rotation angle, and applying it to a state whose control
qubit is fixed at |1> equals applying the corresponding plain rotation gate
to the target qubit alone. -/
theorem controlled_rotation_control_action :
    ∀ (n B : ℕ) (g : ControlledRotationGate n) (state : QState n B)
      (thetas : ThetaInput B),
      g.control ≠ g.target →
      ((∀ f b, f g.control = 1 → state f b = 0) →
        g.apply (g.matrices thetas) state = state) ∧
      ((∀ f b, f g.control = 0 → state f b = 0) →
        g.apply (g.matrices thetas) state =
          (RotationGate.mk g.gate g.target g.imat g.paulimat).forward state thetas) := by
  intro n B g state thetas hct
  exact ⟨fun h => controlled_apply_control_zero _ state g.control g.target hct h,
         fun h => controlled_apply_control_one _ state g.control g.target hct h⟩

/-- The basis state |00> of a 2-qubit register, batch size 1. -/
def state00 : QState 2 1 := fun f _ => if f 0 = 0 ∧ f 1 = 0 then 1 else 0

/-- The basis state |10> (control qubit 0 in state |1>), batch size 1. -/
def state10 : QState 2 1 := fun f _ => if f 0 = 1 ∧ f 1 = 0 then 1 else 0

/-- Witness for C4 at concrete inputs: the CRX gate on qubits (0,1) of a
2-qubit register, angle 0, applied to |00> (control fixed at |0>) and to
|10> (control fixed at |1>). -/
theorem controlled_rotation_control_action_witness :
    crx01.apply (crx01.matrices theta0) state00 = state00 ∧
    crx01.apply (crx01.matrices theta0) state10 =
      (RotationGate.mk "X" 1 opI pauliX).forward state10 theta0 := by
  have h := controlled_rotation_control_action 2 1 crx01 state00 theta0 (by decide)
  have h2 := controlled_rotation_control_action 2 1 crx01 state10 theta0 (by decide)
  refine ⟨h.1 ?_, h2.2 ?_⟩
  · intro f b hf
    simp [crx01] at hf
    simp [state00, hf]
  · intro f b hf
    simp [crx01] at hf
    simp [state10, hf]

/-- A heap cell for the CPHASE matrix computation: either a plain 4x4
complex tensor (the registered identity buffer `imat`) or a batched tensor
with physical layout (batch, 4, 4) as allocated by `imat.repeat`. -/
inductive TVal (B : ℕ) where
  | m44 (f : Fin 4 → Fin 4 → ℂ)
  | m44b (f : Fin B → Fin 4 → Fin 4 → ℂ)

/-- A heap of torch tensors: an allocation cursor and the contents of each
address. -/
structure Store (B : ℕ) where
  next : ℕ
  mem : ℕ → Option (TVal B)

/-- Allocate a fresh cell at the cursor (tensor-producing torch operations
such as `.repeat` return newly allocated memory). -/
def Store.alloc {B : ℕ} (σ : Store B) (v : TVal B) : Store B × ℕ :=
  (⟨σ.next + 1, fun a => if a = σ.next then some v else σ.mem a⟩, σ.next)

/-- Heap-level model of `CPHASE.matrices`: `self.imat.repeat((batch,1,1))`
allocates a fresh (batch,4,4) tensor holding replicated copies of the
registered buffer; `torch.permute(mat, (1,2,0))` is a view of that same
fresh storage with logical axes (4,4,batch); the slice assignment
`mat[3,3,:] = exp(1j*theta)` writes through the view into the fresh storage
only.  Returns the updated store and the address of the fresh tensor (the
fall-through branch for an absent or non-4x4 cell never occurs for a gate
whose buffer was registered by `CPHASE.__init__`). -/
def CPHASE.matricesOp {B : ℕ} (σ : Store B) (imatAddr : ℕ)
    (theta : Fin B → ℝ) : Store B × ℕ :=
  match σ.mem imatAddr with
  | some (TVal.m44 im) =>
      let rep : Fin B → Fin 4 → Fin 4 → ℂ := fun _ i j => im i j
      let σ1 := (σ.alloc (TVal.m44b rep)).1
      let addr := (σ.alloc (TVal.m44b rep)).2
      (⟨σ1.next, fun a =>
          if a = addr then
            some (TVal.m44b (fun k i j =>
              if i = 3 ∧ j = 3 then Complex.exp (Complex.I * theta k)
              else rep k i j))
          else σ1.mem a⟩, addr)
  | _ => (σ, imatAddr)

/-- Read the batched tensor at an address through the (1,2,0)-permuted
view: logical index (i, j, k) is physical (k, i, j). -/
def Store.readView {B : ℕ} (σ : Store B) (addr : ℕ) : Option (MBatch4 B) :=
  match σ.mem addr with
  | some (TVal.m44b f) => some (fun i j k => f k i j)
  | _ => none

lemma readView_of_mem {B : ℕ} (σ : Store B) (a : ℕ)
    (g : Fin B → Fin 4 → Fin 4 → ℂ) (h : σ.mem a = some (TVal.m44b g)) :
    σ.readView a = some (fun i j k => g k i j) := by
  simp [Store.readView, h]

lemma matricesOp_reduce {B : ℕ} (σ : Store B) (ia : ℕ) (θ : Fin B → ℝ)
    (im : Fin 4 → Fin 4 → ℂ) (hmem : σ.mem ia = some (TVal.m44 im)) :
    (CPHASE.matricesOp σ ia θ).1.next = σ.next + 1 ∧
    (CPHASE.matricesOp σ ia θ).2 = σ.next ∧
    ∀ a, (CPHASE.matricesOp σ ia θ).1.mem a =
      if a = σ.next then
        some (TVal.m44b (fun k i j =>
          if i = 3 ∧ j = 3 then Complex.exp (Complex.I * θ k) else im i j))
      else σ.mem a := by
  refine ⟨?_, ?_, ?_⟩
  · simp [CPHASE.matricesOp, hmem, Store.alloc]
  · simp [CPHASE.matricesOp, hmem, Store.alloc]
  · intro a
    by_cases ha : a = σ.next <;>
      simp [CPHASE.matricesOp, hmem, Store.alloc, ha]

/-- C10: `CPHASE.matrices` never mutates state shared across calls: every
previously allocated cell — in particular the registered identity buffer
`imat` — is unchanged by a call, the in-place write lands only in the tensor
freshly allocated by `repeat` on that same call, and two successive calls
with different angles return independent results, each equal to the
functional `CPHASE.matrices` value for its own angle. -/
theorem cphase_matricesOp_no_shared_mutation :
    ∀ (B : ℕ) (σ : Store B) (imatAddr : ℕ) (theta1 theta2 : Fin B → ℝ)
      (control target : Fin 2),
      imatAddr < σ.next →
      (∀ a, a < σ.next →
        (CPHASE.matricesOp σ imatAddr theta1).1.mem a = σ.mem a) ∧
      (σ.mem imatAddr = some (TVal.m44 fun i j => (1 : Mat4) i j) →
        (CPHASE.matricesOp σ imatAddr theta1).1.mem imatAddr =
          some (TVal.m44 fun i j => (1 : Mat4) i j) ∧
        Store.readView (CPHASE.matricesOp σ imatAddr theta1).1
            (CPHASE.matricesOp σ imatAddr theta1).2 =
          some ((CPHASE.init control target).matrices (ThetaInput.rank1 theta1)) ∧
        Store.readView (CPHASE.matricesOp (CPHASE.matricesOp σ imatAddr theta1).1
              imatAddr theta2).1
            (CPHASE.matricesOp σ imatAddr theta1).2 =
          some ((CPHASE.init control target).matrices (ThetaInput.rank1 theta1)) ∧
        Store.readView (CPHASE.matricesOp (CPHASE.matricesOp σ imatAddr theta1).1
              imatAddr theta2).1
            (CPHASE.matricesOp (CPHASE.matricesOp σ imatAddr theta1).1
              imatAddr theta2).2 =
          some ((CPHASE.init control target).matrices (ThetaInput.rank1 theta2)) ∧
        (CPHASE.matricesOp (CPHASE.matricesOp σ imatAddr theta1).1
            imatAddr theta2).1.mem imatAddr =
          some (TVal.m44 fun i j => (1 : Mat4) i j)) := by
  intro B σ imatAddr theta1 theta2 control target hlt
  constructor
  · intro a ha
    cases hm : σ.mem imatAddr with
    | none => simp [CPHASE.matricesOp, hm]
    | some v =>
      cases v with
      | m44 im =>
        rw [(matricesOp_reduce σ imatAddr theta1 im hm).2.2 a, if_neg (by omega)]
      | m44b g => simp [CPHASE.matricesOp, hm]
  · intro hmem
    obtain ⟨hn1, ha1, hm1⟩ := matricesOp_reduce σ imatAddr theta1 _ hmem
    have hpre : (CPHASE.matricesOp σ imatAddr theta1).1.mem imatAddr =
        some (TVal.m44 fun i j => (1 : Mat4) i j) := by
      rw [hm1 imatAddr, if_neg (by omega)]
      exact hmem
    obtain ⟨hn2, ha2, hm2⟩ :=
      matricesOp_reduce (CPHASE.matricesOp σ imatAddr theta1).1 imatAddr theta2 _ hpre
    have hv1 : (CPHASE.matricesOp σ imatAddr theta1).1.mem
        (CPHASE.matricesOp σ imatAddr theta1).2 =
        some (TVal.m44b (fun k i j =>
          if i = 3 ∧ j = 3 then Complex.exp (Complex.I * theta1 k)
          else (1 : Mat4) i j)) := by
      rw [ha1, hm1 σ.next, if_pos rfl]
    have hv1' : (CPHASE.matricesOp (CPHASE.matricesOp σ imatAddr theta1).1
        imatAddr theta2).1.mem (CPHASE.matricesOp σ imatAddr theta1).2 =
        some (TVal.m44b (fun k i j =>
          if i = 3 ∧ j = 3 then Complex.exp (Complex.I * theta1 k)
          else (1 : Mat4) i j)) := by
      rw [hm2 (CPHASE.matricesOp σ imatAddr theta1).2, if_neg (by omega), hv1]
    have hv2 : (CPHASE.matricesOp (CPHASE.matricesOp σ imatAddr theta1).1
        imatAddr theta2).1.mem (CPHASE.matricesOp (CPHASE.matricesOp σ
        imatAddr theta1).1 imatAddr theta2).2 =
        some (TVal.m44b (fun k i j =>
          if i = 3 ∧ j = 3 then Complex.exp (Complex.I * theta2 k)
          else (1 : Mat4) i j)) := by
      rw [ha2, hm2 (CPHASE.matricesOp σ imatAddr theta1).1.next, if_pos rfl]
    refine ⟨hpre, ?_, ?_, ?_, ?_⟩
    · rw [readView_of_mem _ _ _ hv1]
      rfl
    · rw [readView_of_mem _ _ _ hv1']
      rfl
    · rw [readView_of_mem _ _ _ hv2]
      rfl
    · rw [hm2 imatAddr, if_neg (by omega)]
      exact hpre

/-- A concrete one-cell store: the identity buffer registered at address 0. -/
def store0 : Store 1 :=
  ⟨1, fun a => if a = 0 then some (TVal.m44 fun i j => (1 : Mat4) i j) else none⟩

/-- Witness for C10 at a concrete store: one identity buffer at address 0,
cursor 1, angle batch [0]. -/
theorem cphase_matricesOp_no_shared_mutation_witness :
    (CPHASE.matricesOp store0 0 (fun _ => 0)).1.mem 0 =
      some (TVal.m44 fun i j => (1 : Mat4) i j) ∧
    Store.readView (CPHASE.matricesOp store0 0 (fun _ => 0)).1
        (CPHASE.matricesOp store0 0 (fun _ => 0)).2 =
      some ((CPHASE.init (0 : Fin 2) (1 : Fin 2)).matrices (ThetaInput.rank1 fun _ => 0)) := by
  have h := cphase_matricesOp_no_shared_mutation 1 store0 0 (fun _ => 0)
    (fun _ => 0) (0 : Fin 2) (1 : Fin 2) (by norm_num [store0])
  have h2 := h.2 (by simp [store0])
  exact ⟨h2.1, h2.2.1⟩
